import Mathlib

/-!
Verification of the natural-language specification of an LSM key/value
storage engine (pebble) against a shallow embedding of its behaviour.

The repository snapshot contains the engine's datadriven test expectations
(`testdata/range_del`, combined-iterator, read-compaction, ingest-load and
log-recycler test files) but not the engine implementation itself.  Each
operation needed by the claims is therefore modelled from the
specification's description of that operation, and the model is validated
below against the concrete input/output pairs recorded in the test files.
-/

namespace Pebble

/-- User keys are byte strings, compared bytewise lexicographically
(the default comparator). -/
abbrev UserKey := List Nat

/-- Lexicographic strict order on byte strings. -/
def keyLt : UserKey → UserKey → Bool
  | [], [] => false
  | [], _ :: _ => true
  | _ :: _, [] => false
  | a :: as, b :: bs => if a < b then true else if b < a then false else keyLt as bs

/-- Lexicographic order, non-strict. -/
def keyLe (a b : UserKey) : Bool := !(keyLt b a)

/-- Kinds of internal keys (trailer kind byte values of the engine). -/
inductive Kind where
  | del
  | set
  | merge
  | rangedel
  deriving DecidableEq, Repr

/-- Point mutation stored in a layer: user key, sequence number, kind and
value bytes. -/
structure Point where
  ukey : UserKey
  seq : Nat
  kind : Kind
  value : List Nat
  deriving DecidableEq, Repr

/-- Range tombstone over `[start, stop)` at a sequence number. -/
structure RangeDel where
  start : UserKey
  stop : UserKey
  seq : Nat
  deriving DecidableEq, Repr

/-- One layer of the read path: a memtable or a level of sstables.  Layers
are ordered newest first, exactly as the engine's get iterator visits
them. -/
structure Layer where
  points : List Point
  rangedels : List RangeDel
  deriving Repr

/-- Modelled from the spec: visibility of a mutation at a read snapshot.
A reader at snapshot `s` sees only entries with sequence number strictly
below `s` (the test driver's `get seq=11` observes the SETs at seq 10 but
not the RANGEDEL at seq 11). -/
def visibleAt (snap seq : Nat) : Bool := seq < snap

/-- Modelled from the spec: a range tombstone over `[start, stop)` covers
user key `k` when `start ≤ k < stop` (end exclusive). -/
def RangeDel.covers (t : RangeDel) (k : UserKey) : Bool :=
  keyLe t.start k && keyLt k t.stop

/-- Sequence number of the newest visible range tombstone of a layer
covering `k`, if any. -/
def Layer.tombSeq (l : Layer) (k : UserKey) (snap : Nat) : Option Nat :=
  l.rangedels.foldl
    (fun acc t =>
      if t.covers k && visibleAt snap t.seq then
        match acc with
        | none => some t.seq
        | some m => some (max m t.seq)
      else acc)
    none

/-- Newest visible point mutation of a layer for user key `k`, if any. -/
def Layer.newestPoint (l : Layer) (k : UserKey) (snap : Nat) : Option Point :=
  l.points.foldl
    (fun acc p =>
      if p.ukey == k && visibleAt snap p.seq then
        match acc with
        | none => some p
        | some q => if q.seq < p.seq then some p else some q
      else acc)
    none

/-- Modelled from the spec: the result of a point lookup.  `get` walks the
layers newest first.  In the first layer holding either a visible point
mutation for the key or a visible covering range tombstone the lookup is
decided: the point wins when its sequence number is at least the
tombstone's (a tombstone hides only strictly older writes), otherwise the
tombstone hides the key, and everything in the older layers below, no
matter the sequence numbers stored there (the level-by-level nature of
get, pinned by the `get seq=12` expectation after `define L1 rangedel /
L2 set`). -/
def getLayers : List Layer → UserKey → Nat → Option (List Nat)
  | [], _, _ => none
  | l :: rest, k, snap =>
    match l.newestPoint k snap, l.tombSeq k snap with
    | some p, some ts =>
        if p.seq < ts then none
        else (match p.kind with | .set => some p.value | _ => none)
    | some p, none => (match p.kind with | .set => some p.value | _ => none)
    | none, some _ => none
    | none, none => getLayers rest k snap

/-! Concrete store of the overlapping-RANGEDEL-across-memtables scenario
(`testdata/range_del`, the four-memtable `define` block): per key in
{a,b,c,d} a SET at seq 10, 12, 14 and 16, with RANGEDEL [a,d) at seq 11 in
the second memtable, RANGEDEL [b,d) at seq 13 in the third, and RANGEDEL
[c,d) at seq 13 in the fourth. -/

/-- Byte string of a single character key. -/
def kA : UserKey := [97]

/-- Byte string of the key b. -/
def kB : UserKey := [98]

/-- Byte string of the key c. -/
def kC : UserKey := [99]

/-- Byte string of the key d. -/
def kD : UserKey := [100]

/-- Memtable holding the SETs of one generation: every key of {a,b,c,d}
set to the value `v` at sequence number `s`. -/
def setGen (s : Nat) (v : Nat) : List Point :=
  [⟨kA, s, .set, [v]⟩, ⟨kB, s, .set, [v]⟩, ⟨kC, s, .set, [v]⟩, ⟨kD, s, .set, [v]⟩]

/-- The four memtables of the scenario, newest first, as `get` visits
them. -/
def rangeDelMemtables : List Layer :=
  [ ⟨setGen 16 52, [⟨kC, kD, 13⟩]⟩,
    ⟨setGen 14 51, [⟨kB, kD, 13⟩]⟩,
    ⟨setGen 12 50, [⟨kA, kD, 11⟩]⟩,
    ⟨setGen 10 49, []⟩ ]

/-- Claim C1: under RANGEDEL semantics, across the four memtables, get at
a snapshot sequence returns the newest visible mutation: get(a,seq=12) is
not found, get(d,seq=12) returns 1, get(c,seq=16) is not found, and
get(a,seq=14) returns 2. -/
theorem get_overlapping_rangedels_across_memtables :
    getLayers rangeDelMemtables kA 12 = none ∧
    getLayers rangeDelMemtables kD 12 = some [49] ∧
    getLayers rangeDelMemtables kC 16 = none ∧
    getLayers rangeDelMemtables kA 14 = some [50] := by
  refine ⟨?_, ?_, ?_, ?_⟩ <;> decide

/-- Claim C10: point lookup proceeds level by level from the newest layer
down.  As soon as a layer holds a visible covering range tombstone and no
visible point mutation for the key, the lookup answers not found — the
deeper layers are never consulted, whatever sequence numbers they hold. -/
theorem get_shallow_tombstone_shadows_deeper_layers
    (pre : List Layer) (l : Layer) (post : List Layer) (k : UserKey) (snap : Nat)
    (hpre : ∀ l' ∈ pre, l'.newestPoint k snap = none ∧ l'.tombSeq k snap = none)
    (hpt : l.newestPoint k snap = none)
    (ht : (l.tombSeq k snap).isSome = true) :
    getLayers (pre ++ l :: post) k snap = none := by
  induction pre with
  | nil =>
    obtain ⟨ts, hts⟩ := Option.isSome_iff_exists.mp ht
    simp only [List.nil_append]
    unfold getLayers
    rw [hpt, hts]
  | cons l' rest ih =>
    have h' := hpre l' (List.mem_cons_self l' rest)
    simp only [List.cons_append]
    unfold getLayers
    rw [h'.1, h'.2]
    exact ih (fun x hx => hpre x (List.mem_cons_of_mem l' hx))

/-- Witness for C10, the invalid-LSM scenario of `testdata/range_del`: a
RANGEDEL [a,b) at seq 10 in the shallower level hides the deeper level's
`a.SET.11` even though seq 11 is higher than the tombstone's seq 10 and
visible at snapshot 12; get(a, seq=12) is not found. -/
theorem get_shallow_tombstone_shadows_deeper_layers_witness :
    (Layer.mk [Point.mk kA 11 Kind.set [50]] []).newestPoint kA 12 =
      some (Point.mk kA 11 Kind.set [50]) ∧
    getLayers
      [Layer.mk [] [RangeDel.mk kA kB 10], Layer.mk [Point.mk kA 11 Kind.set [50]] []]
      kA 12 = none :=
  ⟨by decide,
   get_shallow_tombstone_shadows_deeper_layers []
     (Layer.mk [] [RangeDel.mk kA kB 10])
     [Layer.mk [Point.mk kA 11 Kind.set [50]] []] kA 12
     (by simp) (by decide) (by decide)⟩

/-! Log recycler.  The implementation is absent from the snapshot (only
`TestLogRecycler` is present); the model below follows the spec's §4.3
contract and reproduces every step of that test. -/

/-- File number and size of a finalized WAL segment offered for
recycling. -/
structure FileInfo where
  fileNum : Nat
  fileSize : Nat
  deriving DecidableEq, Repr

/-- State of the log recycler: the FIFO list of recycled segments, the
highest file number ever offered, and the configured capacity and
minimum recyclable number. -/
structure LogRecycler where
  limit : Nat
  minRecycleLogNum : Nat
  logs : List FileInfo
  maxLogNum : Nat
  deriving DecidableEq, Repr

/-- Modelled from the spec: `add` accepts only file numbers at or above
`minRecycleLogNum`; a number at or below `maxLogNum` was already
considered and reports success without touching the list; otherwise
`maxLogNum` is raised to the offered number (also when the list is full
and the offer is then rejected), and the segment is appended only while
the list is below `limit`.  Matches every `require` of
`TestLogRecycler`. -/
def LogRecycler.add (r : LogRecycler) (f : FileInfo) : Bool × LogRecycler :=
  if f.fileNum < r.minRecycleLogNum then (false, r)
  else if f.fileNum ≤ r.maxLogNum then (true, r)
  else
    let r' := { r with maxLogNum := f.fileNum }
    if r.limit ≤ r.logs.length then (false, r')
    else (true, { r' with logs := r'.logs ++ [f] })

/-- Failure modes of `pop`. -/
inductive PopError where
  | empty
  | invalidOrder
  deriving DecidableEq, Repr

/-- Modelled from the spec: `pop(file_num)` removes only the head of the
FIFO list; it fails with `empty` on an empty list and with
`invalidOrder` when `file_num` is not the head, leaving the state
unchanged in both failure cases. -/
def LogRecycler.pop (r : LogRecycler) (n : Nat) : LogRecycler × Option PopError :=
  match r.logs with
  | [] => (r, some PopError.empty)
  | f :: rest =>
    if f.fileNum = n then ({ r with logs := rest }, none)
    else (r, some PopError.invalidOrder)

/-- Reachable-state invariant of the recycler: every recycled segment's
number lies between `minRecycleLogNum` and `maxLogNum`. -/
def LogRecycler.WF (r : LogRecycler) : Prop :=
  ∀ f ∈ r.logs, r.minRecycleLogNum ≤ f.fileNum ∧ f.fileNum ≤ r.maxLogNum

/-- Claim C7: the `add` contract.  (1) numbers below `minRecycleLogNum`
are refused and the state is untouched; (2) a fresh number (above
`maxLogNum`) offered while the list already holds `limit` entries is
refused with no new entry recycled; (3) a number already present in the
list reports success and leaves the state unchanged; (4) once
`maxLogNum = N`, a later `add(N)` is treated as already considered:
nothing new is recycled and the state is unchanged (the test requires
the call itself to report success, since the caller may then delete the
file). -/
theorem logRecycler_add_contract (r : LogRecycler) (f : FileInfo) :
    (f.fileNum < r.minRecycleLogNum → r.add f = (false, r)) ∧
    (r.minRecycleLogNum ≤ f.fileNum → r.maxLogNum < f.fileNum →
      r.limit ≤ r.logs.length → (r.add f).1 = false ∧ (r.add f).2.logs = r.logs) ∧
    (r.WF → f.fileNum ∈ r.logs.map FileInfo.fileNum → r.add f = (true, r)) ∧
    (r.minRecycleLogNum ≤ f.fileNum → f.fileNum = r.maxLogNum →
      (r.add f).1 = true ∧ (r.add f).2 = r) := by
  refine ⟨?_, ?_, ?_, ?_⟩
  · intro h
    simp only [LogRecycler.add, if_pos h]
  · intro hmin hmax hfull
    simp only [LogRecycler.add]
    rw [if_neg (by omega), if_neg (by omega), if_pos hfull]
    exact ⟨rfl, rfl⟩
  · intro hwf hmem
    obtain ⟨g, hg, hgn⟩ := List.mem_map.mp hmem
    have hb := hwf g hg
    simp only [LogRecycler.add]
    rw [if_neg (by omega), if_pos (by omega)]
  · intro hmin heq
    simp only [LogRecycler.add]
    rw [if_neg (by omega), if_pos (by omega)]
    exact ⟨rfl, rfl⟩

/-- Witness for C7 at the state `TestLogRecycler` reaches after the
overflowing `add(7)`: limit 3, min 4, list [4,5,6], maxLogNum 7. -/
theorem logRecycler_add_contract_witness :
    (LogRecycler.mk 3 4 [⟨4, 0⟩, ⟨5, 0⟩, ⟨6, 0⟩] 7).add ⟨1, 0⟩ =
      (false, LogRecycler.mk 3 4 [⟨4, 0⟩, ⟨5, 0⟩, ⟨6, 0⟩] 7) ∧
    ((LogRecycler.mk 3 4 [⟨4, 0⟩, ⟨5, 0⟩, ⟨6, 0⟩] 7).add ⟨8, 0⟩).1 = false ∧
    (LogRecycler.mk 3 4 [⟨4, 0⟩, ⟨5, 0⟩, ⟨6, 0⟩] 7).add ⟨4, 0⟩ =
      (true, LogRecycler.mk 3 4 [⟨4, 0⟩, ⟨5, 0⟩, ⟨6, 0⟩] 7) ∧
    ((LogRecycler.mk 3 4 [⟨4, 0⟩, ⟨5, 0⟩, ⟨6, 0⟩] 7).add ⟨7, 0⟩).2 =
      LogRecycler.mk 3 4 [⟨4, 0⟩, ⟨5, 0⟩, ⟨6, 0⟩] 7 :=
  ⟨(logRecycler_add_contract _ ⟨1, 0⟩).1 (by decide),
   ((logRecycler_add_contract _ ⟨8, 0⟩).2.1 (by decide) (by decide) (by decide)).1,
   (logRecycler_add_contract _ ⟨4, 0⟩).2.2.1
      (by intro g hg; fin_cases hg <;> exact ⟨by decide, by decide⟩) (by decide),
   ((logRecycler_add_contract _ ⟨7, 0⟩).2.2.2 (by decide) (by decide)).2⟩

/-- Claim C8: the `pop` contract.  pop succeeds exactly when the popped
number is the head of the FIFO list, and then removes exactly that head;
a nonempty list with a different head (in particular a number present
deeper in the list) fails with the invalid-order error; an empty list
fails with the empty error; both failures leave the state unchanged. -/
theorem logRecycler_pop_contract (r : LogRecycler) (n : Nat) :
    (∀ f rest, r.logs = f :: rest → f.fileNum = n →
      r.pop n = ({ r with logs := rest }, none)) ∧
    ((r.pop n).2 = none ↔ ∃ f rest, r.logs = f :: rest ∧ f.fileNum = n) ∧
    (∀ f rest, r.logs = f :: rest → f.fileNum ≠ n →
      r.pop n = (r, some PopError.invalidOrder)) ∧
    (r.logs = [] → r.pop n = (r, some PopError.empty)) ∧
    (∀ e, (r.pop n).2 = some e → (r.pop n).1 = r) := by
  obtain ⟨lim, minr, logs, maxn⟩ := r
  cases logs with
  | nil =>
    refine ⟨?_, ?_, ?_, ?_, ?_⟩
    · intro f rest h; cases h
    · simp [LogRecycler.pop]
    · intro f rest h; cases h
    · intro _; rfl
    · intro e _; rfl
  | cons f rest =>
    by_cases hf : f.fileNum = n
    · refine ⟨?_, ?_, ?_, ?_, ?_⟩
      · intro f' rest' h h'
        cases h
        simp [LogRecycler.pop, hf]
      · refine ⟨fun _ => ⟨f, rest, rfl, hf⟩, fun _ => ?_⟩
        simp [LogRecycler.pop, hf]
      · intro f' rest' h h'
        cases h
        exact absurd hf h'
      · intro h; cases h
      · intro e he
        simp [LogRecycler.pop, hf] at he
    · refine ⟨?_, ?_, ?_, ?_, ?_⟩
      · intro f' rest' h h'
        cases h
        exact absurd h' hf
      · simp only [LogRecycler.pop, if_neg hf]
        constructor
        · intro h; cases h
        · rintro ⟨f', rest', h, h'⟩
          cases h
          exact absurd h' hf
      · intro f' rest' h h'
        cases h
        simp [LogRecycler.pop, hf]
      · intro h; cases h
      · intro e _
        simp [LogRecycler.pop, hf]

/-- Witness for C8 at the test's state [4,5,6]: pop(5) fails with the
invalid-order error leaving the list unchanged, pop(4) removes the head,
and pop on the empty recycler fails with the empty error. -/
theorem logRecycler_pop_contract_witness :
    (LogRecycler.mk 3 4 [⟨4, 0⟩, ⟨5, 0⟩, ⟨6, 0⟩] 7).pop 5 =
      (LogRecycler.mk 3 4 [⟨4, 0⟩, ⟨5, 0⟩, ⟨6, 0⟩] 7, some PopError.invalidOrder) ∧
    (LogRecycler.mk 3 4 [⟨4, 0⟩, ⟨5, 0⟩, ⟨6, 0⟩] 7).pop 4 =
      (LogRecycler.mk 3 4 [⟨5, 0⟩, ⟨6, 0⟩] 7, none) ∧
    (LogRecycler.mk 3 4 [] 7).pop 9 =
      (LogRecycler.mk 3 4 [] 7, some PopError.empty) :=
  ⟨(logRecycler_pop_contract (LogRecycler.mk 3 4 [⟨4, 0⟩, ⟨5, 0⟩, ⟨6, 0⟩] 7) 5).2.2.1
      ⟨4, 0⟩ [⟨5, 0⟩, ⟨6, 0⟩] rfl (by decide),
   (logRecycler_pop_contract (LogRecycler.mk 3 4 [⟨4, 0⟩, ⟨5, 0⟩, ⟨6, 0⟩] 7) 4).1
      ⟨4, 0⟩ [⟨5, 0⟩, ⟨6, 0⟩] rfl rfl,
   (logRecycler_pop_contract (LogRecycler.mk 3 4 [] 7) 9).2.2.2.1 rfl⟩

/-! Ingest load.  The loading code is absent from the snapshot (only the
`load` datadriven expectations are); the model follows the spec's §6
sstable contract for ingestion. -/

/-- Internal key of an sstable offered for ingestion: user key, on-disk
sequence number and kind. -/
structure InternalKey where
  ukey : UserKey
  seq : Nat
  kind : Kind
  deriving DecidableEq, Repr

/-- Modelled from the spec: loading an sstable for ingestion fails,
reporting the offending internal key, as soon as some internal key
carries a non-zero sequence number on disk; a file whose keys all carry
seq 0 is accepted unchanged (`load` answers `external sstable has
non-zero seqnum: a#1,SET` for `a.SET.1`). -/
def ingestLoad (keys : List InternalKey) : Except InternalKey (List InternalKey) :=
  match keys.find? (fun k => k.seq != 0) with
  | some k => Except.error k
  | none => Except.ok keys

/-- Modelled from the spec: at reference time the engine stamps one
effective sequence number uniformly onto every key of an accepted
file. -/
def stampSeq (keys : List InternalKey) (s : Nat) : List InternalKey :=
  keys.map (fun k => { k with seq := s })

/-- Claim C9: a file with any non-zero on-disk sequence number is
refused with an error naming an offending key; a file whose keys all
have seq 0 is accepted, and stamping the effective sequence at reference
time gives every key that sequence number. -/
theorem ingestLoad_contract (keys : List InternalKey) :
    ((∀ k ∈ keys, k.seq = 0) →
      ingestLoad keys = Except.ok keys ∧
        ∀ s, ∀ k' ∈ stampSeq keys s, k'.seq = s) ∧
    (∀ k, (∃ j ∈ keys, j.seq ≠ 0) →
      ingestLoad keys = Except.error k → k ∈ keys ∧ k.seq ≠ 0) ∧
    ((∃ j ∈ keys, j.seq ≠ 0) → ∃ k, ingestLoad keys = Except.error k) := by
  refine ⟨?_, ?_, ?_⟩
  · intro hz
    have hnone : keys.find? (fun k => k.seq != 0) = none := by
      apply List.find?_eq_none.mpr
      intro k hk
      simp [hz k hk]
    constructor
    · unfold ingestLoad
      rw [hnone]
    · intro s k' hk'
      obtain ⟨k, _, hk⟩ := List.mem_map.mp hk'
      rw [← hk]
  · intro k _ herr
    cases hf : keys.find? (fun k => k.seq != 0) with
    | none =>
      unfold ingestLoad at herr
      rw [hf] at herr
      cases herr
    | some j =>
      unfold ingestLoad at herr
      rw [hf] at herr
      cases herr
      refine ⟨List.mem_of_find?_eq_some hf, ?_⟩
      have := List.find?_some hf
      simpa using this
  · rintro ⟨j, hj, hjz⟩
    cases hf : keys.find? (fun k => k.seq != 0) with
    | none =>
      have := List.find?_eq_none.mp hf j hj
      simp [hjz] at this
    | some k =>
      refine ⟨k, ?_⟩
      unfold ingestLoad
      rw [hf]

/-- Witness for C9: the `load` expectations — `a.SET.1` is refused
naming `a#1,SET`, while `a.SET.0; b.SET.0` is accepted, and stamping
sequence 19 puts every key at sequence 19. -/
theorem ingestLoad_contract_witness :
    ingestLoad [InternalKey.mk kA 0 Kind.set, InternalKey.mk kB 0 Kind.set] =
      Except.ok [InternalKey.mk kA 0 Kind.set, InternalKey.mk kB 0 Kind.set] ∧
    (∃ k, ingestLoad [InternalKey.mk kA 1 Kind.set] = Except.error k) ∧
    ∀ k' ∈ stampSeq [InternalKey.mk kA 0 Kind.set, InternalKey.mk kB 0 Kind.set] 19,
      k'.seq = 19 :=
  ⟨((ingestLoad_contract _).1 (by decide)).1,
   (ingestLoad_contract [InternalKey.mk kA 1 Kind.set]).2.2
      ⟨InternalKey.mk kA 1 Kind.set, by simp, by decide⟩,
   fun k' hk' => ((ingestLoad_contract _).1 (by decide)).2 19 k' hk'⟩

/-! Read-triggered compactions.  The picker/executor is absent from the
snapshot (only the `maybe-compact` datadriven expectations are); the
model follows the spec's §4.9 description and reproduces the
transcripts. -/

/-- Metadata of one sstable in a Version: file number and inclusive
user-key bounds. -/
structure FileMeta where
  fileNum : Nat
  smallest : UserKey
  largest : UserKey
  deriving DecidableEq, Repr

/-- Immutable snapshot of the file set: the list of files of each level,
indexed by level number. -/
structure Version where
  levels : List (List FileMeta)
  deriving DecidableEq, Repr

/-- Files of a level (empty when the level does not exist). -/
def Version.filesAt (v : Version) (l : Nat) : List FileMeta :=
  v.levels.getD l []

/-- Version with the file list of one level replaced. -/
def Version.setLevel (v : Version) (l : Nat) (fs : List FileMeta) : Version :=
  ⟨v.levels.set l fs⟩

/-- Whether a file's inclusive key range intersects `[lo, hi]`. -/
def FileMeta.overlapsRange (f : FileMeta) (lo hi : UserKey) : Bool :=
  keyLe lo f.largest && keyLe f.smallest hi

/-- Queued marker for a read-triggered compaction: the level, key range
and file number recorded when the read touched overlapping files. -/
structure ReadCompaction where
  level : Nat
  start : UserKey
  stop : UserKey
  fileNum : Nat
  deriving DecidableEq, Repr

/-- Modelled from the spec: a queued read compaction is still valid only
when the current Version holds the recorded file number at the recorded
level, overlapping the recorded range. -/
def validRC (v : Version) (rc : ReadCompaction) : Bool :=
  (v.filesAt rc.level).any
    (fun f => f.fileNum == rc.fileNum && f.overlapsRange rc.start rc.stop)

/-- Smaller of two keys. -/
def minKey (a b : UserKey) : UserKey := if keyLe a b then a else b

/-- Larger of two keys. -/
def maxKey (a b : UserKey) : UserKey := if keyLe a b then b else a

/-- Inclusive key bounds spanned by a set of input files. -/
def boundsOf : List FileMeta → UserKey × UserKey
  | [] => ([], [])
  | f :: rest =>
    rest.foldl (fun acc g => (minKey acc.1 g.smallest, maxKey acc.2 g.largest))
      (f.smallest, f.largest)

/-- Modelled from the spec: executing a read compaction merges the
overlapping files of the marked level and of the next level into one new
output file placed at the next level (the transcript compacts
L5 000004 + L6 000005 into L6 000006). -/
def compactRC (v : Version) (rc : ReadCompaction) (nfn : Nat) : Version :=
  let inL := (v.filesAt rc.level).filter (fun f => f.overlapsRange rc.start rc.stop)
  let outL := (v.filesAt (rc.level + 1)).filter (fun f => f.overlapsRange rc.start rc.stop)
  let keepL := (v.filesAt rc.level).filter (fun f => !f.overlapsRange rc.start rc.stop)
  let keepO := (v.filesAt (rc.level + 1)).filter (fun f => !f.overlapsRange rc.start rc.stop)
  let nb := boundsOf (inL ++ outL)
  (v.setLevel rc.level keepL).setLevel (rc.level + 1)
    (keepO ++ [FileMeta.mk nfn nb.1 nb.2])

/-- DB state relevant to read compactions: the current Version, the
queue of read-compaction markers, whether a flush is in progress, and
the next file number. -/
structure DBState where
  version : Version
  queue : List ReadCompaction
  flushing : Bool
  nextFileNum : Nat
  deriving DecidableEq, Repr

/-- Queue walk of maybe-compact: discard stale markers until the first
valid one, execute it, and keep the remaining queue. -/
def maybeCompactGo (v : Version) (nfn : Nat) : List ReadCompaction → DBState
  | [] => ⟨v, [], false, nfn⟩
  | rc :: rest =>
    if validRC v rc then ⟨compactRC v rc nfn, rest, false, nfn + 1⟩
    else maybeCompactGo v nfn rest

/-- Modelled from the spec: maybe-compact does nothing while a flush is
in progress; otherwise it pops queued markers, discarding those the
current Version no longer validates, and executes the first valid
one. -/
def maybeCompact (s : DBState) : DBState :=
  if s.flushing then s else maybeCompactGo s.version s.nextFileNum s.queue

/-- Replacing a level's file list changes that level. -/
theorem filesAt_setLevel_self (v : Version) (l : Nat) (fs : List FileMeta)
    (h : l < v.levels.length) : (v.setLevel l fs).filesAt l = fs := by
  simp [Version.setLevel, Version.filesAt, List.getD_eq_getElem?_getD,
    List.getElem?_set, h]

/-- Replacing a level's file list leaves the other levels alone. -/
theorem filesAt_setLevel_other (v : Version) (l l' : Nat) (fs : List FileMeta)
    (h : l ≠ l') : (v.setLevel l fs).filesAt l' = v.filesAt l' := by
  simp [Version.setLevel, Version.filesAt, List.getD_eq_getElem?_getD,
    List.getElem?_set, h]

/-- After a read compaction the marked level keeps exactly its
non-overlapping files. -/
theorem compactRC_filesAt_marked (v : Version) (rc : ReadCompaction) (nfn : Nat)
    (h : rc.level + 1 < v.levels.length) :
    (compactRC v rc nfn).filesAt rc.level =
      (v.filesAt rc.level).filter (fun f => !f.overlapsRange rc.start rc.stop) := by
  unfold compactRC
  rw [filesAt_setLevel_other _ _ _ _ (by omega)]
  exact filesAt_setLevel_self _ _ _ (by omega)

/-- After a read compaction the next level holds its non-overlapping
files plus the single new output file. -/
theorem compactRC_filesAt_output (v : Version) (rc : ReadCompaction) (nfn : Nat)
    (h : rc.level + 1 < v.levels.length) :
    (compactRC v rc nfn).filesAt (rc.level + 1) =
      (v.filesAt (rc.level + 1)).filter (fun f => !f.overlapsRange rc.start rc.stop)
        ++ [FileMeta.mk nfn
            (boundsOf ((v.filesAt rc.level).filter
                (fun f => f.overlapsRange rc.start rc.stop)
              ++ (v.filesAt (rc.level + 1)).filter
                (fun f => f.overlapsRange rc.start rc.stop))).1
            (boundsOf ((v.filesAt rc.level).filter
                (fun f => f.overlapsRange rc.start rc.stop)
              ++ (v.filesAt (rc.level + 1)).filter
                (fun f => f.overlapsRange rc.start rc.stop))).2] := by
  unfold compactRC
  apply filesAt_setLevel_self
  simpa [Version.setLevel] using h

/-- Claim C4: with one queued read-compaction marker and no flush in
progress — when the current Version still holds the recorded file number
at the recorded level, maybe-compact clears the marker, leaves no file
overlapping the recorded range at that level, and installs a new output
file at the next level; when the Version no longer validates the marker,
maybe-compact performs no compaction, leaves the Version unchanged and
discards the marker. -/
theorem maybeCompact_contract (v : Version) (rc : ReadCompaction) (nfn : Nat)
    (hlen : rc.level + 1 < v.levels.length) :
    (validRC v rc = true →
      (maybeCompact ⟨v, [rc], false, nfn⟩).queue = [] ∧
      (∀ f ∈ (maybeCompact ⟨v, [rc], false, nfn⟩).version.filesAt rc.level,
        f.overlapsRange rc.start rc.stop = false) ∧
      (∃ f ∈ (maybeCompact ⟨v, [rc], false, nfn⟩).version.filesAt (rc.level + 1),
        f.fileNum = nfn)) ∧
    (validRC v rc = false →
      maybeCompact ⟨v, [rc], false, nfn⟩ = ⟨v, [], false, nfn⟩) := by
  constructor
  · intro hvalid
    simp only [maybeCompact, maybeCompactGo, if_neg Bool.false_ne_true, if_pos hvalid]
    refine ⟨by trivial, ?_, ?_⟩
    · intro f hf
      rw [compactRC_filesAt_marked v rc nfn hlen] at hf
      have := List.of_mem_filter hf
      simpa using this
    · rw [compactRC_filesAt_output v rc nfn hlen]
      exact ⟨_, List.mem_append_right _ (List.mem_singleton.mpr rfl), rfl⟩
  · intro hinvalid
    simp only [maybeCompact, maybeCompactGo, if_neg Bool.false_ne_true]
    rw [if_neg (by simp [hinvalid])]

/-- LSM of the read-compaction transcript: L5 holds file 4 over [a,b]
and L6 holds file 5 over [a,b]. -/
def rcVersion : Version :=
  ⟨[[], [], [], [], [], [FileMeta.mk 4 kA kB], [FileMeta.mk 5 kA kB]]⟩

/-- Witness for C4 at the transcript's LSM: a valid marker (L5, a-b,
file 4) compacts into a new file numbered 6 at L6 and clears the queue;
a marker with a stale file number (3) or a stale level (4) leaves the
Version unchanged and is discarded. -/
theorem maybeCompact_contract_witness :
    (maybeCompact ⟨rcVersion, [⟨5, kA, kB, 4⟩], false, 6⟩).queue = [] ∧
    (∃ f ∈ (maybeCompact ⟨rcVersion, [⟨5, kA, kB, 4⟩], false, 6⟩).version.filesAt 6,
      f.fileNum = 6) ∧
    maybeCompact ⟨rcVersion, [⟨5, kA, kB, 3⟩], false, 6⟩ = ⟨rcVersion, [], false, 6⟩ ∧
    maybeCompact ⟨rcVersion, [⟨4, kA, kB, 4⟩], false, 6⟩ = ⟨rcVersion, [], false, 6⟩ :=
  ⟨((maybeCompact_contract rcVersion ⟨5, kA, kB, 4⟩ 6 (by decide)).1 (by decide)).1,
   ((maybeCompact_contract rcVersion ⟨5, kA, kB, 4⟩ 6 (by decide)).1 (by decide)).2.2,
   (maybeCompact_contract rcVersion ⟨5, kA, kB, 3⟩ 6 (by decide)).2 (by decide),
   (maybeCompact_contract rcVersion ⟨4, kA, kB, 4⟩ 6 (by decide)).2 (by decide)⟩

/-! Ingest-and-excise.  The ingestion code is absent from the snapshot
(only the `ingest-and-excise` expectations of `testdata/range_del` are);
the model follows the spec's §4.11 procedure: every existing file
overlapping the excise span is replaced by up to two virtual files
carrying the non-overlapping prefix and suffix of its data, and the
ingested table is then added. -/

/-- Byte string of the key e. -/
def kE : UserKey := [101]

/-- Byte string of the key f. -/
def kF : UserKey := [102]

/-- Byte string of the key g. -/
def kG : UserKey := [103]

/-- Byte string of the key i. -/
def kI : UserKey := [105]

/-- Byte string of the key j. -/
def kJ : UserKey := [106]

/-- Byte string of the key k. -/
def kK : UserKey := [107]

/-- Byte string of the key z. -/
def kZ : UserKey := [122]

/-- Sstable of the bottom level: its file number, the user keys its
reads surface, and (for a virtual file) the physical backing file's
number. -/
structure Table where
  fileNum : Nat
  keys : List UserKey
  backing : Option Nat
  deriving DecidableEq, Repr

/-- Whether the table's key range intersects the excise span
`[e1, e2)`: some key at or above `e1` and some key below `e2`. -/
def Table.overlapsSpan (t : Table) (e1 e2 : UserKey) : Bool :=
  t.keys.any (fun k => keyLe e1 k) && t.keys.any (fun k => keyLt k e2)

/-- Modelled from the spec: excising `[e1, e2)` out of one table.  A
non-overlapping table is kept as is; an overlapping one is replaced by
up to two virtual files over the same backing — the keys below `e1` and
the keys at or above `e2` — each carrying a fresh file number, empty
sides dropped. -/
def exciseFile (t : Table) (e1 e2 : UserKey) (nfn : Nat) : List Table × Nat :=
  if t.overlapsSpan e1 e2 then
    let backing := t.backing.getD t.fileNum
    let left := t.keys.filter (fun k => keyLt k e1)
    let right := t.keys.filter (fun k => keyLe e2 k)
    if left.isEmpty then
      if right.isEmpty then ([], nfn)
      else ([Table.mk nfn right (some backing)], nfn + 1)
    else
      if right.isEmpty then ([Table.mk nfn left (some backing)], nfn + 1)
      else ([Table.mk nfn left (some backing), Table.mk (nfn + 1) right (some backing)],
        nfn + 2)
  else ([t], nfn)

/-- Excise applied to every table of a level, threading the file-number
allocator. -/
def exciseAll : List Table → UserKey → UserKey → Nat → List Table × Nat
  | [], _, _, nfn => ([], nfn)
  | t :: rest, e1, e2, nfn =>
    let (ts, nfn') := exciseFile t e1 e2 nfn
    let (rs, nfn'') := exciseAll rest e1 e2 nfn'
    (ts ++ rs, nfn'')

/-- Modelled from the spec: atomic ingest-and-excise over the bottom
level.  The ingested table takes the next file number, the excise is
applied to the existing files (the ingested table itself is not
excised), and the ingested table joins the level. -/
def ingestAndExcise (bottom : List Table) (ing : List UserKey) (e1 e2 : UserKey)
    (nfn : Nat) : List Table × Nat :=
  let ingested := Table.mk nfn ing none
  let (excised, nfn') := exciseAll bottom e1 e2 (nfn + 1)
  (excised ++ [ingested], nfn')

/-- Whether a point lookup of `k` on the level finds it. -/
def lookupKey (bottom : List Table) (k : UserKey) : Bool :=
  bottom.any (fun t => t.keys.contains k)

/-- Bottom level before the ingests of the transcript: one physical file
numbered 10 spanning [a..g]. -/
def bottomAG : List Table :=
  [Table.mk 10 [kA, kB, kC, kD, kE, kF, kG] none]

/-- Counterexample to claim C3 as stated: ingesting {i,j,k} with excise
range [j,k) over a bottom level holding one file [a..g] does not split
that file at b and d — the excise span touches neither the existing file
nor the ingested one, so the file [a..g] survives intact, the ingested
file keeps i, j and k, and a lookup of j succeeds. -/
theorem ingestAndExcise_jk_counterexample :
    (ingestAndExcise bottomAG [kI, kJ, kK] kJ kK 11).1.map Table.keys =
      [[kA, kB, kC, kD, kE, kF, kG], [kI, kJ, kK]] ∧
    lookupKey (ingestAndExcise bottomAG [kI, kJ, kK] kJ kK 11).1 kJ = true := by
  refine ⟨?_, ?_⟩ <;> decide

/-- Claim C3 as amended, the transcript's actual sequence: ingesting
{i,j,k} with excise range [c,d) splits the bottom file [a..g] into
virtual remnants [a..b] and [d..g] over backing 10 and adds the ingested
file {i,j,k}; a second ingest of {z} with excise range [j,k) then splits
the ingested file into virtual remnants {i} and {k}, after which a
lookup of j is not found while a..b, d..g, i, k and z are all found. -/
theorem ingestAndExcise_transcript :
    (ingestAndExcise
        (ingestAndExcise bottomAG [kI, kJ, kK] kC kD 11).1 [kZ] kJ kK 14).1 =
      [Table.mk 12 [kA, kB] (some 10), Table.mk 13 [kD, kE, kF, kG] (some 10),
       Table.mk 15 [kI] (some 11), Table.mk 16 [kK] (some 11),
       Table.mk 14 [kZ] none] ∧
    lookupKey (ingestAndExcise
        (ingestAndExcise bottomAG [kI, kJ, kK] kC kD 11).1 [kZ] kJ kK 14).1 kJ
      = false ∧
    ([kA, kB, kD, kE, kF, kG, kI, kK, kZ].all
      (fun q => lookupKey (ingestAndExcise
          (ingestAndExcise bottomAG [kI, kJ, kK] kC kD 11).1 [kZ] kJ kK 14).1 q)
      = true) := by
  refine ⟨by decide, by decide, by decide⟩

/-! Restricted checkpoints.  The checkpoint code is absent from the
snapshot (only the `checkpoint … restrict=…` expectations are); the
model follows the spec's §4.12 procedure for the restricted file set. -/

/-- One file of the current Version as the checkpoint sees it: file
number, inclusive user-key bounds, whether it is a virtual file, and the
number of the physical file its reads go to (itself when physical). -/
structure CkptFile where
  fileNum : Nat
  smallest : UserKey
  largest : UserKey
  isVirtual : Bool
  backing : Nat
  deriving DecidableEq, Repr

/-- Restriction interval `[lo, hi)` of a restricted checkpoint. -/
structure Interval where
  lo : UserKey
  hi : UserKey
  deriving DecidableEq, Repr

/-- Whether the file's user-key range intersects some restriction
interval. -/
def CkptFile.overlapsRestrict (f : CkptFile) (rs : List Interval) : Bool :=
  rs.any (fun i => keyLe i.lo f.largest && keyLt f.smallest i.hi)

/-- Modelled from the spec: the physical files hard-linked into a
restricted checkpoint — the backing file of every Version file whose
range overlaps some restriction interval. -/
def checkpointLinks (files : List CkptFile) (rs : List Interval) : List Nat :=
  ((files.filter (fun f => f.overlapsRestrict rs)).map CkptFile.backing).dedup

/-- Backing files referenced by the virtual files of the Version (the
manifest's backing set before the checkpoint's removals). -/
def versionBackings (files : List CkptFile) : List Nat :=
  ((files.filter (fun f => f.isVirtual)).map CkptFile.backing).dedup

/-- Modelled from the spec: the backing set recorded in the checkpoint's
manifest snapshot — backings of the virtual files kept by the
restriction. -/
def checkpointBackings (files : List CkptFile) (rs : List Interval) : List Nat :=
  (((files.filter (fun f => f.overlapsRestrict rs)).filter
    (fun f => f.isVirtual)).map CkptFile.backing).dedup

/-- Modelled from the spec: the remove-backing entries written into the
checkpoint's manifest snapshot — the Version's backings that no kept
virtual file references any more. -/
def removeBackingEntries (files : List CkptFile) (rs : List Interval) : List Nat :=
  (versionBackings files).filter (fun b => !(checkpointBackings files rs).contains b)

/-- Claim C5: in a restricted checkpoint, a virtual file overlapping
some restriction interval forces its backing physical file to be linked;
a backing all of whose files fall outside every restriction interval is
not linked, is recorded as a remove-backing entry, and is excluded from
the opened checkpoint's backing set. -/
theorem checkpoint_restrict_contract (files : List CkptFile) (rs : List Interval)
    (f : CkptFile) (b : Nat) :
    (f ∈ files → f.overlapsRestrict rs = true →
      f.backing ∈ checkpointLinks files rs) ∧
    (b ∈ versionBackings files →
      (∀ g ∈ files, g.backing = b → g.overlapsRestrict rs = false) →
      b ∉ checkpointLinks files rs ∧
      b ∈ removeBackingEntries files rs ∧
      b ∉ checkpointBackings files rs) := by
  constructor
  · intro hmem hov
    apply List.mem_dedup.mpr
    exact List.mem_map.mpr ⟨f, List.mem_filter.mpr ⟨hmem, hov⟩, rfl⟩
  · intro hb hout
    have hnotc : b ∉ checkpointBackings files rs := by
      intro hc
      obtain ⟨g, hg, hgb⟩ := List.mem_map.mp (List.mem_dedup.mp hc)
      have hg2 := List.mem_filter.mp (List.mem_filter.mp hg).1
      have := hout g hg2.1 hgb
      rw [this] at hg2
      exact Bool.false_ne_true hg2.2
    refine ⟨?_, ?_, hnotc⟩
    · intro hl
      obtain ⟨g, hg, hgb⟩ := List.mem_map.mp (List.mem_dedup.mp hl)
      have hg2 := List.mem_filter.mp hg
      have := hout g hg2.1 hgb
      rw [this] at hg2
      exact Bool.false_ne_true hg2.2
    · apply List.mem_filter.mpr
      refine ⟨hb, ?_⟩
      rw [Bool.not_eq_true']
      by_contra hc
      rw [Bool.not_eq_false] at hc
      exact hnotc (by simpa using hc)

/-- Version files of the checkpoint transcript after both excises:
virtual files 12 [a..b] and 13 [d..g] over backing 10, virtual files
15 [i..i] and 16 [k..k] over backing 11, and physical file 14 [z..z]. -/
def ckptFiles : List CkptFile :=
  [CkptFile.mk 12 kA kB true 10, CkptFile.mk 13 kD kG true 10,
   CkptFile.mk 15 kI kI true 11, CkptFile.mk 16 kK kK true 11,
   CkptFile.mk 14 kZ kZ false 14]

/-- Witness for C5 at the transcript: with restrict=(d-zz) the virtual
file 13 overlaps, so backing 10 is linked; with restrict=(i-zz) both
children of backing 10 fall outside, so 10 is not linked, becomes a
remove-backing entry, and is excluded from the checkpoint's backing
set. -/
theorem checkpoint_restrict_contract_witness :
    (10 : Nat) ∈ checkpointLinks ckptFiles [Interval.mk kD [122, 122]] ∧
    ((10 : Nat) ∉ checkpointLinks ckptFiles [Interval.mk kI [122, 122]] ∧
      (10 : Nat) ∈ removeBackingEntries ckptFiles [Interval.mk kI [122, 122]] ∧
      (10 : Nat) ∉ checkpointBackings ckptFiles [Interval.mk kI [122, 122]]) :=
  ⟨(checkpoint_restrict_contract ckptFiles [Interval.mk kD [122, 122]]
      (CkptFile.mk 13 kD kG true 10) 10).1 (by decide) (by decide),
   (checkpoint_restrict_contract ckptFiles [Interval.mk kI [122, 122]]
      (CkptFile.mk 13 kD kG true 10) 10).2 (by decide)
      (by intro g hg; fin_cases hg <;> decide)⟩

/-! Combined (user-facing) iterator with range keys and masking.  The
iterator stack is absent from the snapshot (only the `combined-iter`
expectations are); the model follows the spec's §4.7 description of the
interleaved point/range-key stream — synthesized markers at span start
boundaries, ephemeral positions for seeks into a span, and suffix-based
masking — and reproduces the recorded transcripts. -/

/-- Point key of the versioned-key comparator: a prefix and an optional
numeric timestamp suffix (`bz@10` is prefix `bz`, timestamp 10). -/
structure PKey where
  pfx : List Nat
  ts : Option Nat
  deriving DecidableEq, Repr

/-- Suffix order of the comparator as full keys sort: no suffix first,
then larger (newer) timestamps before smaller ones. -/
def tsLt : Option Nat → Option Nat → Bool
  | none, none => false
  | none, some _ => true
  | some _, none => false
  | some a, some b => b < a

/-- Full-key order: prefix bytewise ascending, then suffix order. -/
def pkeyLt (a b : PKey) : Bool :=
  keyLt a.pfx b.pfx || (a.pfx == b.pfx && tsLt a.ts b.ts)

/-- One suffixed key of a range-key span: timestamp and value. -/
structure RKey where
  ts : Nat
  val : List Nat
  deriving DecidableEq, Repr

/-- Defragmented range-key span `[start, stop)` with its keys. -/
structure RSpan where
  start : UserKey
  stop : UserKey
  rkeys : List RKey
  deriving DecidableEq, Repr

/-- Point key/value pair of the merged point stream. -/
structure IterPoint where
  key : PKey
  val : List Nat
  deriving DecidableEq, Repr

/-- Whether the span covers the full key `k`: `start ≤ k < stop` in
full-key order (a suffixed key sorts after its bare prefix). -/
def RSpan.coversKey (s : RSpan) (k : PKey) : Bool :=
  keyLe s.start k.pfx && keyLt k.pfx s.stop

/-- Modelled from the spec and the `combined-iter mask-suffix`
transcripts: with mask timestamp `m`, a covering range key at timestamp
`rt ≤ m` masks a point whose timestamp is strictly below `rt`; suffixless
points are never masked. -/
def maskedPoint (mask : Option Nat) (spans : List RSpan) (p : PKey) : Bool :=
  match mask, p.ts with
  | some m, some tp =>
    spans.any (fun s => s.coversKey p && s.rkeys.any (fun rk => rk.ts ≤ m && tp < rk.ts))
  | _, _ => false

/-- Point stream after masking. -/
def visiblePts (mask : Option Nat) (pts : List IterPoint) (spans : List RSpan) :
    List IterPoint :=
  pts.filter (fun p => !maskedPoint mask spans p.key)

/-- Synthesized marker keys: the start boundary of every span. -/
def markerKeys (spans : List RSpan) : List PKey :=
  spans.map (fun s => PKey.mk s.start none)

/-- Keys at which the combined iterator stops during a full scan:
unmasked point keys and span start markers. -/
def canonKeys (mask : Option Nat) (pts : List IterPoint) (spans : List RSpan) :
    List PKey :=
  ((visiblePts mask pts spans).map IterPoint.key ++ markerKeys spans).dedup

/-- Point value surfaced at a key, if an unmasked point sits exactly
there. -/
def pointAt (mask : Option Nat) (pts : List IterPoint) (spans : List RSpan)
    (k : PKey) : Option (List Nat) :=
  ((visiblePts mask pts spans).find? (fun p => p.key == k)).map IterPoint.val

/-- Covering range-key span surfaced at a key, if any. -/
def spanAt (spans : List RSpan) (k : PKey) : Option RSpan :=
  spans.find? (fun s => s.coversKey k)

/-- Observables of one iterator position: the key, the point value (if
any) and the covering span (if any). -/
structure IterPos where
  key : PKey
  point : Option (List Nat)
  span : Option RSpan
  deriving DecidableEq, Repr

/-- The iterator position at a key. -/
def posAt (mask : Option Nat) (pts : List IterPoint) (spans : List RSpan)
    (k : PKey) : IterPos :=
  IterPos.mk k (pointAt mask pts spans k) (spanAt spans k)

/-- Smallest key of the list at or above `k`, if any. -/
def leastGE : List PKey → PKey → Option PKey
  | [], _ => none
  | c :: rest, k =>
    let r := leastGE rest k
    if pkeyLt c k then r
    else
      match r with
      | none => some c
      | some m => if pkeyLt c m then some c else some m

/-- Largest key of the list strictly below `k`, if any. -/
def greatestLT : List PKey → PKey → Option PKey
  | [], _ => none
  | c :: rest, k =>
    let r := greatestLT rest k
    if pkeyLt c k then
      some (r.elim c (fun m => if pkeyLt m c then c else m))
    else r

/-- Modelled from the spec: seekGE.  A seek into a covering span stops
at the sought key itself (a synthesized, possibly ephemeral, marker
position); otherwise it stops at the first surfaced key at or above the
sought key. -/
def seekGE (mask : Option Nat) (pts : List IterPoint) (spans : List RSpan)
    (k : PKey) : Option IterPos :=
  if spans.any (fun s => s.coversKey k) then some (posAt mask pts spans k)
  else (leastGE (canonKeys mask pts spans) k).map (posAt mask pts spans)

/-- Modelled from the spec: prev.  From any position the iterator steps
to the largest surfaced key strictly below the current one (ephemeral
seek positions are stepped over, never revisited). -/
def prevPos (mask : Option Nat) (pts : List IterPoint) (spans : List RSpan)
    (pos : IterPos) : Option IterPos :=
  (greatestLT (canonKeys mask pts spans) pos.key).map (posAt mask pts spans)

/-- A key is never strictly below itself. -/
theorem keyLt_irrefl : ∀ a : UserKey, keyLt a a = false
  | [] => rfl
  | x :: xs => by simp [keyLt, keyLt_irrefl xs]

/-- Two keys neither of which is below the other are equal. -/
theorem keyLt_antisymm : ∀ a b : UserKey,
    keyLt a b = false → keyLt b a = false → a = b
  | [], [], _, _ => rfl
  | [], _ :: _, h, _ => by simp [keyLt] at h
  | _ :: _, [], _, h' => by simp [keyLt] at h'
  | a :: as, b :: bs, h, h' => by
    by_cases hab : a < b
    · simp [keyLt, hab] at h
    · by_cases hba : b < a
      · simp [keyLt, hba, hab] at h'
      · have hv : a = b := by omega
        subst hv
        simp only [keyLt, if_neg hab] at h h'
        rw [keyLt_antisymm as bs h h']

/-- Two suffixes neither of which is below the other are equal. -/
theorem tsLt_antisymm : ∀ a b : Option Nat,
    tsLt a b = false → tsLt b a = false → a = b
  | none, none, _, _ => rfl
  | none, some _, h, _ => by simp [tsLt] at h
  | some _, none, _, h' => by simp [tsLt] at h'
  | some a, some b, h, h' => by
    simp only [tsLt, decide_eq_false_iff_not] at h h'
    have : a = b := by omega
    rw [this]

/-- Two full keys neither of which is below the other are equal. -/
theorem pkeyLt_antisymm (a b : PKey) (h : pkeyLt a b = false)
    (h' : pkeyLt b a = false) : a = b := by
  simp only [pkeyLt, Bool.or_eq_false_iff, Bool.and_eq_false_iff] at h h'
  have hpfx : a.pfx = b.pfx := keyLt_antisymm _ _ h.1 h'.1
  have hts : a.ts = b.ts := by
    rcases h.2 with hb | ht
    · rw [beq_eq_false_iff_ne] at hb
      exact absurd hpfx hb
    · rcases h'.2 with hb' | ht'
      · rw [beq_eq_false_iff_ne] at hb'
        exact absurd hpfx.symm hb'
      · exact tsLt_antisymm _ _ ht ht'
  cases a
  cases b
  simp_all

/-- The key returned by greatestLT is in the list and below the bound. -/
theorem greatestLT_sound : ∀ (ks : List PKey) (k m : PKey),
    greatestLT ks k = some m → m ∈ ks ∧ pkeyLt m k = true
  | [], k, m, h => by simp [greatestLT] at h
  | c :: rest, k, m, h => by
    simp only [greatestLT] at h
    by_cases hc : pkeyLt c k = true
    · rw [if_pos hc] at h
      cases hr : greatestLT rest k with
      | none =>
        rw [hr] at h
        simp only [Option.elim_none, Option.some.injEq] at h
        subst h
        exact ⟨List.mem_cons_self c rest, hc⟩
      | some m' =>
        rw [hr] at h
        simp only [Option.elim_some, Option.some.injEq] at h
        have hm' := greatestLT_sound rest k m' hr
        by_cases hmc : pkeyLt m' c = true
        · rw [if_pos hmc] at h
          subst h
          exact ⟨List.mem_cons_self c rest, hc⟩
        · rw [if_neg hmc] at h
          subst h
          exact ⟨List.mem_cons_of_mem c hm'.1, hm'.2⟩
    · rw [if_neg hc] at h
      have hm := greatestLT_sound rest k m h
      exact ⟨List.mem_cons_of_mem c hm.1, hm.2⟩

/-- greatestLT returns exactly the greatest list element below the
bound. -/
theorem greatestLT_eq_of_max (ks : List PKey) (k p : PKey)
    (hp : p ∈ ks) (hpk : pkeyLt p k = true)
    (hmax : ∀ c ∈ ks, pkeyLt c k = true → pkeyLt p c = false) :
    greatestLT ks k = some p := by
  induction ks with
  | nil => cases hp
  | cons c rest ih =>
    simp only [greatestLT]
    rcases List.mem_cons.mp hp with hpc | hprest
    · subst hpc
      rw [if_pos hpk]
      cases hr : greatestLT rest k with
      | none => rfl
      | some m =>
        have hm := greatestLT_sound rest k m hr
        have hpm : pkeyLt p m = false := hmax m (List.mem_cons_of_mem p hm.1) hm.2
        simp only [Option.elim_some, Option.some.injEq]
        by_cases hmp : pkeyLt m p = true
        · rw [if_pos hmp]
        · rw [if_neg hmp]
          rw [pkeyLt_antisymm m p (Bool.not_eq_true _ ▸ hmp) hpm]
    · have hr : greatestLT rest k = some p :=
        ih hprest (fun c' hc' hck => hmax c' (List.mem_cons_of_mem c hc') hck)
      by_cases hc : pkeyLt c k = true
      · rw [if_pos hc, hr]
        have hpc : pkeyLt p c = false := hmax c (List.mem_cons_self c rest) hc
        simp only [Option.elim_some, Option.some.injEq]
        rw [if_neg (by simp [hpc])]
      · rw [if_neg hc]
        exact hr

/-- Point stream of the prev-over-marker scenario: the single point key
a (value a). -/
def c6Pts : List IterPoint := [IterPoint.mk (PKey.mk kA none) [97]]

/-- Range-key span of the prev-over-marker scenario: [b,e) @1=foo. -/
def c6Spans : List RSpan := [RSpan.mk kB kE [RKey.mk 1 [102, 111, 111]]]

/-- Spans of the counterexample to C6 as stated: an additional span
[a5,a9) whose start marker lies between the point a and the span start
b. -/
def c6CexSpans : List RSpan :=
  [RSpan.mk [97, 53] [97, 57] [RKey.mk 1 [102]], RSpan.mk kB kE [RKey.mk 1 [102]]]

/-- Counterexample to claim C6 as stated: with point key a and spans
[a5,a9) and [b,e), prev after seekGE(b) lands on the synthesized start
marker of the other span at a5 (no point key there), not on the largest
point key strictly below b, which is a. -/
theorem combinedIter_prev_counterexample :
    ((seekGE none c6Pts c6CexSpans (PKey.mk kB none)).bind
        (prevPos none c6Pts c6CexSpans)).map IterPos.key =
      some (PKey.mk [97, 53] none) ∧
    ((seekGE none c6Pts c6CexSpans (PKey.mk kB none)).bind
        (prevPos none c6Pts c6CexSpans)).map IterPos.point = some none ∧
    greatestLT ((visiblePts none c6Pts c6CexSpans).map IterPoint.key)
      (PKey.mk kB none) = some (PKey.mk kA none) := by
  refine ⟨by decide, by decide, by decide⟩

/-- Claim C6 as amended: positioned by seekGE(b) where b is the start
boundary of a nonempty range-key span with no point key surfaced at b —
a synthesized marker position — prev steps over exactly the synthesis
and lands on the largest surfaced key strictly below b (never on b's
marker again); that key is the largest point key below b whenever no
other span's start marker lies in between, as in the transcript. -/
theorem combinedIter_prev_over_marker
    (mask : Option Nat) (pts : List IterPoint) (spans : List RSpan)
    (s : RSpan) (p : PKey)
    (hs : s ∈ spans) (hne : keyLt s.start s.stop = true)
    (hnopt : pointAt mask pts spans (PKey.mk s.start none) = none)
    (hp : p ∈ canonKeys mask pts spans)
    (hpb : pkeyLt p (PKey.mk s.start none) = true)
    (hmax : ∀ c ∈ canonKeys mask pts spans,
      pkeyLt c (PKey.mk s.start none) = true → pkeyLt p c = false) :
    seekGE mask pts spans (PKey.mk s.start none) =
      some (IterPos.mk (PKey.mk s.start none) none
        (spanAt spans (PKey.mk s.start none))) ∧
    prevPos mask pts spans
        (IterPos.mk (PKey.mk s.start none) none
          (spanAt spans (PKey.mk s.start none))) =
      some (posAt mask pts spans p) := by
  have hcov : spans.any (fun t => t.coversKey (PKey.mk s.start none)) = true := by
    apply List.any_eq_true.mpr
    refine ⟨s, hs, ?_⟩
    simp [RSpan.coversKey, keyLe, keyLt_irrefl, hne]
  constructor
  · rw [seekGE, if_pos hcov, posAt, hnopt]
  · rw [prevPos]
    have : greatestLT (canonKeys mask pts spans) (PKey.mk s.start none) = some p :=
      greatestLT_eq_of_max _ _ _ hp hpb hmax
    rw [this]
    rfl

/-- Witness for C6 (amended) at the transcript's data — point a, span
[b,e) @1=foo: seekGE(b) surfaces the synthesized marker at b, and prev
lands on the point key a. -/
theorem combinedIter_prev_over_marker_witness :
    seekGE none c6Pts c6Spans (PKey.mk kB none) =
      some (IterPos.mk (PKey.mk kB none) none
        (spanAt c6Spans (PKey.mk kB none))) ∧
    prevPos none c6Pts c6Spans
        (IterPos.mk (PKey.mk kB none) none
          (spanAt c6Spans (PKey.mk kB none))) =
      some (posAt none c6Pts c6Spans (PKey.mk kA none)) :=
  combinedIter_prev_over_marker none c6Pts c6Spans
    (RSpan.mk kB kE [RKey.mk 1 [102, 111, 111]]) (PKey.mk kA none)
    (by decide) (by decide) (by decide) (by decide) (by decide) (by decide)

/-- Stated from the spec's words for comparison (the C2 masking law),
reading the suffix ordering the way the comparator sorts suffixes
(newer, larger timestamps first): `mask_suffix ≥ s_r` becomes
`m ≤ rk.ts` and `s_p > mask_suffix` becomes `tp < m`. -/
def specMaskLawNewestFirst (m : Nat) (spans : List RSpan) (p : PKey) : Bool :=
  match p.ts with
  | none => false
  | some tp =>
    spans.any (fun s => s.coversKey p && s.rkeys.any (fun rk => m ≤ rk.ts))
      && decide (tp < m)

/-- Stated from the spec's words for comparison (the C2 masking law),
reading the suffix ordering as plain numeric timestamp order:
`mask_suffix ≥ s_r` becomes `rk.ts ≤ m` and `s_p > mask_suffix` becomes
`m < tp`. -/
def specMaskLawNumeric (m : Nat) (spans : List RSpan) (p : PKey) : Bool :=
  match p.ts with
  | none => false
  | some tp =>
    spans.any (fun s => s.coversKey p && s.rkeys.any (fun rk => rk.ts ≤ m))
      && decide (m < tp)

/-- Point stream of the masking transcript around the span [b,c):
b@100, b@10, bz@10, bz@1 and c@100. -/
def c2Pts : List IterPoint :=
  [IterPoint.mk (PKey.mk kB (some 100)) [1], IterPoint.mk (PKey.mk kB (some 10)) [2],
   IterPoint.mk (PKey.mk [98, 122] (some 10)) [3],
   IterPoint.mk (PKey.mk [98, 122] (some 1)) [4],
   IterPoint.mk (PKey.mk kC (some 100)) [5]]

/-- Range-key span of the masking transcript: [b,c) @5=beep. -/
def c2Spans : List RSpan := [RSpan.mk kB kC [RKey.mk 5 [98, 101, 101, 112]]]

/-- Counterexample to claim C2 as stated: with mask-suffix @100 and the
covering span [b,c) @5, the point bz@1 satisfies the claim's masking
condition under neither reading of the suffix ordering — the span's
suffix @5 and the mask @100 compare the wrong way, and @1 is not above
the mask — yet the iterator does not surface bz@1, violating the
claim's "point keys whose suffix does not satisfy this condition remain
visible". -/
theorem combinedIter_masking_counterexample :
    specMaskLawNewestFirst 100 c2Spans (PKey.mk [98, 122] (some 1)) = false ∧
    specMaskLawNumeric 100 c2Spans (PKey.mk [98, 122] (some 1)) = false ∧
    IterPoint.mk (PKey.mk [98, 122] (some 1)) [4] ∈ c2Pts ∧
    (PKey.mk [98, 122] (some 1)) ∉ canonKeys (some 100) c2Pts c2Spans ∧
    pointAt (some 100) c2Pts c2Spans (PKey.mk [98, 122] (some 1)) = none := by
  refine ⟨by decide, by decide, by decide, by decide, by decide⟩

/-- The engine's masking predicate, spelled out declaratively. -/
theorem maskedPoint_iff (m : Nat) (spans : List RSpan) (k : PKey) :
    maskedPoint (some m) spans k = true ↔
      ∃ tp, k.ts = some tp ∧ ∃ s ∈ spans, s.coversKey k = true ∧
        ∃ rk ∈ s.rkeys, rk.ts ≤ m ∧ tp < rk.ts := by
  cases hts : k.ts with
  | none =>
    simp only [maskedPoint, hts]
    simp
  | some tp =>
    simp only [maskedPoint, hts]
    simp [List.any_eq_true, Bool.and_eq_true, decide_eq_true_iff]

/-- Claim C2 as amended: with mask timestamp `m`, a point key `p` of the
merged stream is elided exactly when some covering range-key span holds
a key whose suffix `s_r` satisfies `s_r ≥ mask_suffix` (its timestamp is
at most `m`) and `s_p > s_r` (the point's timestamp is strictly below
the range key's) — the point's suffix is compared against the range
key's suffix, not against the mask; points not satisfying this
condition, and every span with its start marker, remain visible. -/
theorem combinedIter_masking (m : Nat) (pts : List IterPoint) (spans : List RSpan)
    (pt : IterPoint) (hpt : pt ∈ pts) :
    ((∃ tp, pt.key.ts = some tp ∧ ∃ s ∈ spans, s.coversKey pt.key = true ∧
        ∃ rk ∈ s.rkeys, rk.ts ≤ m ∧ tp < rk.ts) →
      pt.key ∉ canonKeys (some m) pts spans ∧
      pointAt (some m) pts spans pt.key = none) ∧
    ((¬ ∃ tp, pt.key.ts = some tp ∧ ∃ s ∈ spans, s.coversKey pt.key = true ∧
        ∃ rk ∈ s.rkeys, rk.ts ≤ m ∧ tp < rk.ts) →
      pt.key ∈ canonKeys (some m) pts spans ∧
      (pointAt (some m) pts spans pt.key).isSome = true) ∧
    (∀ s ∈ spans, PKey.mk s.start none ∈ canonKeys (some m) pts spans ∧
      (keyLt s.start s.stop = true →
        (spanAt spans (PKey.mk s.start none)).isSome = true)) := by
  refine ⟨?_, ?_, ?_⟩
  · intro hcond
    have hmask : maskedPoint (some m) spans pt.key = true :=
      (maskedPoint_iff m spans pt.key).mpr hcond
    constructor
    · intro hmem
      rcases List.mem_append.mp (List.mem_dedup.mp hmem) with hin | hmk
      · obtain ⟨q, hq, hqk⟩ := List.mem_map.mp hin
        have hfil := List.mem_filter.mp hq
        rw [hqk, hmask] at hfil
        simpa using hfil.2
      · obtain ⟨s, _, hsk⟩ := List.mem_map.mp hmk
        obtain ⟨tp, htp, _⟩ := hcond
        rw [← hsk] at htp
        cases htp
    · have hfind : (visiblePts (some m) pts spans).find? (fun p => p.key == pt.key)
          = none := by
        apply List.find?_eq_none.mpr
        intro q hq hbeq
        have hfil := List.mem_filter.mp hq
        have hqe : q.key = pt.key := by simpa using hbeq
        rw [hqe, hmask] at hfil
        simpa using hfil.2
      rw [pointAt, hfind]
      rfl
  · intro hcond
    have hmask : maskedPoint (some m) spans pt.key = false := by
      by_contra hne
      rw [Bool.not_eq_false] at hne
      exact hcond ((maskedPoint_iff m spans pt.key).mp hne)
    have hvis : pt ∈ visiblePts (some m) pts spans :=
      List.mem_filter.mpr ⟨hpt, by simp [hmask]⟩
    constructor
    · exact List.mem_dedup.mpr
        (List.mem_append.mpr (Or.inl (List.mem_map.mpr ⟨pt, hvis, rfl⟩)))
    · cases hfind : (visiblePts (some m) pts spans).find? (fun p => p.key == pt.key) with
      | none =>
        exfalso
        have := List.find?_eq_none.mp hfind pt hvis
        simp at this
      | some q =>
        rw [pointAt, hfind]
        rfl
  · intro s hs
    constructor
    · exact List.mem_dedup.mpr
        (List.mem_append.mpr (Or.inr (List.mem_map.mpr ⟨s, hs, rfl⟩)))
    · intro hne
      cases hfind : spans.find? (fun t => t.coversKey (PKey.mk s.start none)) with
      | none =>
        exfalso
        have := List.find?_eq_none.mp hfind s hs
        simp [RSpan.coversKey, keyLe, keyLt_irrefl, hne] at this
      | some q =>
        rw [spanAt, hfind]
        rfl

/-- Witness for C2 (amended) at the transcript with mask-suffix @100:
bz@1 satisfies the amended condition (range key @5 ≤ @100 and @1 < @5)
and is elided, bz@10 does not and stays visible, and the span [b,c)
remains visible with its marker at b. -/
theorem combinedIter_masking_witness :
    ((PKey.mk [98, 122] (some 1)) ∉ canonKeys (some 100) c2Pts c2Spans ∧
      pointAt (some 100) c2Pts c2Spans (PKey.mk [98, 122] (some 1)) = none) ∧
    ((PKey.mk [98, 122] (some 10)) ∈ canonKeys (some 100) c2Pts c2Spans ∧
      (pointAt (some 100) c2Pts c2Spans (PKey.mk [98, 122] (some 10))).isSome
        = true) ∧
    (PKey.mk kB none ∈ canonKeys (some 100) c2Pts c2Spans ∧
      (keyLt kB kC = true →
        (spanAt c2Spans (PKey.mk kB none)).isSome = true)) :=
  ⟨(combinedIter_masking 100 c2Pts c2Spans
      (IterPoint.mk (PKey.mk [98, 122] (some 1)) [4]) (by decide)).1 (by decide),
   (combinedIter_masking 100 c2Pts c2Spans
      (IterPoint.mk (PKey.mk [98, 122] (some 10)) [3]) (by decide)).2.1 (by decide),
   (combinedIter_masking 100 c2Pts c2Spans
      (IterPoint.mk (PKey.mk [98, 122] (some 10)) [3]) (by decide)).2.2
      (RSpan.mk kB kC [RKey.mk 5 [98, 101, 101, 112]]) (by decide)⟩

end Pebble
